import Mathlib

/-!
Shallow embedding of the impact-analyser code base.

Embedded code:
* `services/impact-analyzer/src/main.py` — `ImpactAnalyzer.analyze_impact`,
  `ImpactAnalyzer.calculate_criticality`;
* `services/repository-scanner/src/scanner/dependency_builder.py` —
  `DependencyGraphBuilder.build_graph`, `_serialize_nodes`, `_serialize_edges`,
  `load_graph_from_data`, `get_node_impact`.

Graphs are held as networkx `DiGraph` values in the code; here a graph is a
node list plus an edge list (networkx keeps nodes and edges in insertion
order and deduplicates both).  The networkx centrality routines that the
code calls (`degree_centrality`, `betweenness_centrality`,
`closeness_centrality`, `descendants`, `ancestors`) are embedded by their
documented formulas for directed graphs.  Floating point arithmetic is
modelled by exact rational arithmetic.
-/

/-! ### Python string operations used by the code -/

/-- python `needle in hay` (substring containment, line 67 of
`dependency_builder.py`). -/
def pyContains (hay needle : String) : Bool :=
  hay.data.tails.any (fun t => needle.data.isPrefixOf t)

/-- python `s.replace(a, b)` for a one-character pattern and replacement,
as used with `'/'`/`'.'` at line 67 of `dependency_builder.py`. -/
def pyReplaceChar (a b : Char) (s : String) : String :=
  ⟨s.data.map (fun c => if c = a then b else c)⟩

/-- python `s.startswith(p)`. -/
def pyStartsWith (s p : String) : Bool := p.data.isPrefixOf s.data

/-! ### Directed graphs (networkx `DiGraph`) -/

/-- A directed graph: node ids and directed edges.  Node and edge lists are
kept duplicate-free, as networkx does. -/
structure NxDiGraph where
  nodes : List String
  edges : List (String × String)
deriving DecidableEq

def NxDiGraph.V (G : NxDiGraph) : Finset String := G.nodes.toFinset

def NxDiGraph.E (G : NxDiGraph) : Finset (String × String) := G.edges.toFinset

/-- `len(G)`: number of (distinct) nodes. -/
def NxDiGraph.n (G : NxDiGraph) : ℕ := G.V.card

/-- `G.in_degree(v)`. -/
def NxDiGraph.indeg (G : NxDiGraph) (v : String) : ℕ :=
  (G.E.filter (fun e => e.2 = v)).card

/-- `G.out_degree(v)`. -/
def NxDiGraph.outdeg (G : NxDiGraph) (v : String) : ℕ :=
  (G.E.filter (fun e => e.1 = v)).card

/-- `G.degree(v)` (in-degree plus out-degree for a `DiGraph`). -/
def NxDiGraph.deg (G : NxDiGraph) (v : String) : ℕ := G.indeg v + G.outdeg v

/-- networkx invariant: both endpoints of every edge are nodes of the
graph (`add_edge` inserts missing endpoints). -/
def NxDiGraph.Closed (G : NxDiGraph) : Prop :=
  ∀ e ∈ G.edges, e.1 ∈ G.nodes ∧ e.2 ∈ G.nodes

instance (G : NxDiGraph) : Decidable G.Closed := by
  unfold NxDiGraph.Closed; infer_instance

/-! ### Reachability (`nx.descendants` / `nx.ancestors`) -/

/-- One breadth step forward: a set together with all targets of edges
leaving it. -/
def NxDiGraph.succStep (G : NxDiGraph) (S : Finset String) : Finset String :=
  S ∪ (G.E.filter (fun e => e.1 ∈ S)).image (fun e => e.2)

/-- One breadth step backward. -/
def NxDiGraph.predStep (G : NxDiGraph) (S : Finset String) : Finset String :=
  S ∪ (G.E.filter (fun e => e.2 ∈ S)).image (fun e => e.1)

/-- `nx.descendants(G, v)`: all nodes reachable from `v`, excluding `v`
itself.  Iterating the breadth step `n` times reaches the fixpoint, since
each non-final step adds at least one of the at most `n` nodes. -/
def NxDiGraph.descendants (G : NxDiGraph) (v : String) : Finset String :=
  ((G.succStep)^[G.n] {v}) \ {v}

/-- `nx.ancestors(G, v)`: all nodes from which `v` is reachable, excluding
`v` itself. -/
def NxDiGraph.ancestors (G : NxDiGraph) (v : String) : Finset String :=
  ((G.predStep)^[G.n] {v}) \ {v}

/-! ### Shortest-path machinery for the networkx centralities -/

/-- Number of directed walks of length `k` from `u` to `v` (entries of the
`k`-th adjacency-matrix power). -/
def NxDiGraph.numWalks (G : NxDiGraph) : ℕ → String → String → ℕ
  | 0, u, v => if u = v then 1 else 0
  | (k + 1), u, v =>
      ∑ w ∈ G.V.filter (fun w => (u, w) ∈ G.E), G.numWalks k w v

/-- BFS distance from `u` to `v`: the least walk length, `none` when `v` is
unreachable from `u`.  A shortest walk repeats no vertex, so length `G.n`
suffices as search bound. -/
def NxDiGraph.distO (G : NxDiGraph) (u v : String) : Option ℕ :=
  (List.range (G.n + 1)).find? (fun k => G.numWalks k u v ≠ 0)

/-- `σ(u,v)`: the number of shortest `u`–`v` paths (walks of minimal length
are exactly the shortest paths), `0` when `v` is unreachable. -/
def NxDiGraph.sigma (G : NxDiGraph) (u v : String) : ℕ :=
  match G.distO u v with
  | none => 0
  | some d => G.numWalks d u v

/-- `σ_w(u,v)`: the number of shortest `u`–`v` paths passing through `w`. -/
def NxDiGraph.sigmaThrough (G : NxDiGraph) (u v w : String) : ℕ :=
  match G.distO u w, G.distO w v, G.distO u v with
  | some d1, some d2, some d =>
      if d1 + d2 = d then G.numWalks d1 u w * G.numWalks d2 w v else 0
  | _, _, _ => 0

/-- Pair dependency `σ_w(u,v)/σ(u,v)` of Brandes betweenness (`0` for an
unreachable pair). -/
def NxDiGraph.pairDep (G : NxDiGraph) (u v w : String) : ℚ :=
  if G.sigma u v = 0 then 0
  else (G.sigmaThrough u v w : ℚ) / (G.sigma u v : ℚ)

/-- Unnormalized betweenness of `w`: sum of the pair dependencies over all
ordered pairs of distinct nodes both different from `w`. -/
def NxDiGraph.rawBetweenness (G : NxDiGraph) (w : String) : ℚ :=
  ∑ p ∈ (G.V.erase w).offDiag, G.pairDep p.1 p.2 w

/-- `nx.betweenness_centrality(G)[w]` for a directed graph with the default
arguments: endpoints excluded, rescaled by `1/((n-1)(n-2))` when `n > 2`
and left unscaled otherwise. -/
def NxDiGraph.betweenness (G : NxDiGraph) (w : String) : ℚ :=
  if 2 < G.n then
    G.rawBetweenness w / (((G.n : ℚ) - 1) * ((G.n : ℚ) - 2))
  else G.rawBetweenness w

/-- The nodes from which `u` can be reached (including `u` itself when it
is a node): the key set of the incoming shortest-path lengths used by
`nx.closeness_centrality`. -/
def NxDiGraph.reachers (G : NxDiGraph) (u : String) : Finset String :=
  G.V.filter (fun w => (G.distO w u).isSome)

/-- Total incoming shortest-path distance to `u`. -/
def NxDiGraph.totsp (G : NxDiGraph) (u : String) : ℕ :=
  ∑ w ∈ G.reachers u, (G.distO w u).getD 0

/-- `nx.closeness_centrality(G)[u]` for a directed graph (incoming
distances, Wasserman–Faust improvement on by default):
`((r-1)/totsp) · ((r-1)/(n-1))` when `totsp > 0` and `n > 1`, else `0`,
where `r` is the number of nodes that can reach `u`. -/
def NxDiGraph.closeness (G : NxDiGraph) (u : String) : ℚ :=
  if 0 < G.totsp u ∧ 1 < G.n then
    (((G.reachers u).card : ℚ) - 1) / (G.totsp u : ℚ) *
      ((((G.reachers u).card : ℚ) - 1) / ((G.n : ℚ) - 1))
  else 0

/-- `nx.degree_centrality(G)[v]`: `1` for every node when `n ≤ 1`, else
`deg(v)/(n-1)`. -/
def NxDiGraph.degreeCentrality (G : NxDiGraph) (v : String) : ℚ :=
  if G.n ≤ 1 then 1 else (G.deg v : ℚ) / ((G.n : ℚ) - 1)

/-! ### `ImpactAnalyzer` (`services/impact-analyzer/src/main.py`) -/

/-- Lines 74–86 of `main.py`: start from the full changed-file list, then
for each changed file that is a node of the graph add its descendants, then
its ancestors. -/
def analyzeImpacted (G : NxDiGraph) (changed : List String) : Finset String :=
  let s1 := changed.foldl
    (fun S f => if f ∈ G.nodes then S ∪ G.descendants f else S)
    changed.toFinset
  changed.foldl (fun S f => if f ∈ G.nodes then S ∪ G.ancestors f else S) s1

/-- Line 153 of `main.py`: `max(1, max(dict(graph.degree()).values()) if
graph.degree() else 1)`. -/
def NxDiGraph.maxDegree (G : NxDiGraph) : ℕ := max 1 (G.V.sup (fun v => G.deg v))

/-- `min(1.0, max(0.0, x))` (line 180). -/
def clamp01 (x : ℚ) : ℚ := min 1 (max 0 x)

/-- `ImpactAnalyzer.calculate_criticality` (lines 136–184) for a node of
the graph: the weighted combination of normalized degrees, betweenness and
closeness, clamped to `[0,1]`.  For a node of the graph every step is
total, so the `except` fallback returning `0.5` is never taken. -/
def calculateCriticality (G : NxDiGraph) (v : String) : ℚ :=
  clamp01 ((G.indeg v : ℚ) / (G.maxDegree : ℚ) * (2 / 5)
    + (G.outdeg v : ℚ) / (G.maxDegree : ℚ) * (1 / 5)
    + G.betweenness v * (3 / 10)
    + G.closeness v * (1 / 10))

/-- Lines 89–93 of `main.py`: the `criticality_scores` dict — every
impacted node that is not a changed file is scored. -/
def scoreMap (G : NxDiGraph) (changed : List String) (v : String) : Option ℚ :=
  if v ∈ analyzeImpacted G changed ∧ v ∉ changed then
    some (calculateCriticality G v)
  else none

/-- Key set of the `criticality_scores` dict. -/
def scoresDom (G : NxDiGraph) (changed : List String) : Finset String :=
  (analyzeImpacted G changed).filter (fun v => v ∉ changed)

/-- Lines 96–98 of `main.py`: scored nodes with score strictly above 0.7. -/
def highRisk (G : NxDiGraph) (changed : List String) : Finset String :=
  (scoresDom G changed).filter (fun v => 7 / 10 < calculateCriticality G v)

/-- `max(criticality_scores.values())`, defaulting to `0`; the default is
only ever used behind the emptiness guard in `analyzeRisk`. -/
def maxScore (G : NxDiGraph) (changed : List String) : ℚ :=
  (((scoresDom G changed).image (fun v => calculateCriticality G v)).max).getD 0

/-- Lines 101–108 of `main.py`.  Python's `max()` raises `ValueError` on an
empty sequence; `criticality_scores` is empty exactly when `scoresDom` is,
and in that case lines 103/105 short-circuit past the high-risk counts and
evaluate `max({}.values())`, so the whole call raises — modelled as
`Except.error ()`. -/
def analyzeRisk (G : NxDiGraph) (changed : List String) : Except Unit String :=
  if 5 ≤ (highRisk G changed).card then .ok "CRITICAL"
  else if 3 ≤ (highRisk G changed).card then .ok "HIGH"
  else if scoresDom G changed = ∅ then .error ()
  else if 17 / 20 < maxScore G changed then .ok "HIGH"
  else if 1 ≤ (highRisk G changed).card then .ok "MEDIUM"
  else if 13 / 20 < maxScore G changed then .ok "MEDIUM"
  else .ok "LOW"

/-- Modelled from the spec (§4.3, claim C1): `impacted = Seed ∪
descendants(Seed) ∪ ancestors(Seed)` with `Seed = changed ∩ V`.  Written
for comparison with `analyzeImpacted`, which is the code's computation. -/
def specImpacted (G : NxDiGraph) (changed : List String) : Finset String :=
  let seed := changed.toFinset.filter (fun c => c ∈ G.nodes)
  seed ∪ seed.biUnion G.descendants ∪ seed.biUnion G.ancestors

/-- The spec's risk table (§4.5) as a function of the high-risk count and
the maximal score. -/
def specRiskTable (h : ℕ) (m : ℚ) : String :=
  if 5 ≤ h then "CRITICAL"
  else if 3 ≤ h ∨ 17 / 20 < m then "HIGH"
  else if 1 ≤ h ∨ 13 / 20 < m then "MEDIUM"
  else "LOW"

/-! ### `DependencyGraphBuilder.get_node_impact` (lines 234–276) -/

/-- Return value of `get_node_impact`: either the error dict or the impact
record (fields that the claims mention). -/
inductive NodeImpact where
  | error (msg : String)
  | ok (node_id : String) (descendants ancestors : Finset String)
      (in_degree out_degree total_impact : ℕ)
deriving DecidableEq

/-- `DependencyGraphBuilder.get_node_impact`: the error dict for an absent
node, otherwise descendants, ancestors, degrees and
`total_impact = len(descendants) + len(ancestors)`. -/
def getNodeImpact (G : NxDiGraph) (node_id : String) : NodeImpact :=
  if node_id ∉ G.nodes then .error "Node not found"
  else .ok node_id (G.descendants node_id) (G.ancestors node_id)
    (G.indeg node_id) (G.outdeg node_id)
    ((G.descendants node_id).card + (G.ancestors node_id).card)

/-! ### `DependencyGraphBuilder.build_graph` (lines 20–89) -/

/-- One value of the `ast_trees` dict: `error` records whether the `'error'`
key is present; the symbol lists hold the names; `imports` holds
`import_data.get('name', '')` for each import entry. -/
structure AstData where
  error : Bool
  functions : List String
  classes : List String
  async_functions : List String
  imports : List String
deriving DecidableEq

/-- The graph under construction: node ids with their optional `type`
attribute (`none` when the node was created implicitly by `add_edge`), and
edges with their `type` attribute. -/
structure BGraph where
  nodes : List (String × Option String)
  edges : List (String × String × String)
deriving DecidableEq

def BGraph.nodeIds (G : BGraph) : List String := G.nodes.map Prod.fst

def BGraph.edgeKeys (G : BGraph) : List (String × String) :=
  G.edges.map (fun e => (e.1, e.2.1))

/-- networkx `add_node(id, type=ty, ...)`: update the attributes when the
node exists, append it otherwise. -/
def BGraph.addNode (G : BGraph) (id ty : String) : BGraph :=
  let upd := G.nodes.map (fun p => if p.1 = id then (id, some ty) else p)
  if id ∈ G.nodeIds then { G with nodes := upd }
  else { G with nodes := G.nodes ++ [(id, some ty)] }

/-- Implicit node creation performed by `add_edge` for a missing endpoint. -/
def BGraph.ensureNode (G : BGraph) (id : String) : BGraph :=
  if id ∈ G.nodeIds then G else { G with nodes := G.nodes ++ [(id, none)] }

/-- networkx `add_edge(u, v, type=ty, ...)`: create missing endpoints, then
update the edge attributes when the edge exists, append it otherwise. -/
def BGraph.addEdge (G : BGraph) (u v ty : String) : BGraph :=
  let G1 := (G.ensureNode u).ensureNode v
  let upd := G1.edges.map (fun e => if e.1 = u ∧ e.2.1 = v then (u, v, ty) else e)
  if (u, v) ∈ G1.edgeKeys then { G1 with edges := upd }
  else { G1 with edges := G1.edges ++ [(u, v, ty)] }

/-- Line 67 of `dependency_builder.py`: `import_name in other_file or
other_file.replace('/', '.').startswith(import_name.replace('.', '/'))`. -/
def matchImport (import_name other_file : String) : Bool :=
  pyContains other_file import_name
    || pyStartsWith (pyReplaceChar '/' '.' other_file)
        (pyReplaceChar '.' '/' import_name)

/-- Lines 66–71: scan `ast_trees.keys()` in iteration order and take the
first key matching the import (the loop `break`s on the first hit). -/
def resolveImport (import_name : String) (keys : List String) : Option String :=
  keys.find? (fun other => matchImport import_name other)

/-- First pass of `build_graph` for one file (lines 34–54): skip files
whose parse result has `error`, otherwise add the file node and one node
per function, class and async function. -/
def addFileNodes (G : BGraph) (path : String) (d : AstData) : BGraph :=
  if d.error then G
  else
    let G1 := G.addNode path "file"
    let G2 := d.functions.foldl
      (fun g f => g.addNode (path ++ "::" ++ f) "function") G1
    let G3 := d.classes.foldl
      (fun g c => g.addNode (path ++ "::" ++ c) "class") G2
    d.async_functions.foldl
      (fun g f => g.addNode (path ++ "::" ++ f) "async_function") G3

/-- Second pass of `build_graph` for one file (lines 57–71): skip `error`
files, otherwise add one `import` edge per import that resolves to a key of
the `ast_trees` dict. -/
def addImportEdges (keys : List String) (G : BGraph) (path : String)
    (d : AstData) : BGraph :=
  if d.error then G
  else d.imports.foldl
    (fun g imp =>
      match resolveImport imp keys with
      | some other => g.addEdge path other "import"
      | none => g) G

/-- `DependencyGraphBuilder.build_graph`: node pass, then edge pass.  The
centrality attributes attached at lines 76–87 are recorded by the
centrality functions on `toNxDiGraph` (the computation is total here, so the
`except` at line 86 never fires). -/
def buildGraph (ast : List (String × AstData)) : BGraph :=
  let keys := ast.map Prod.fst
  let G1 := ast.foldl (fun g pd => addFileNodes g pd.1 pd.2) ⟨[], []⟩
  ast.foldl (fun g pd => addImportEdges keys g pd.1 pd.2) G1

/-- Forget the attributes: the underlying networkx digraph. -/
def BGraph.toNxDiGraph (G : BGraph) : NxDiGraph :=
  ⟨G.nodeIds, G.edgeKeys⟩

/-- Lexicographic comparison of strings by code points, used for the
spec's sorted iteration order. -/
def lexLeChars : List Char → List Char → Bool
  | [], _ => true
  | _ :: _, [] => false
  | a :: as, b :: bs =>
      if a.toNat < b.toNat then true
      else if b.toNat < a.toNat then false
      else lexLeChars as bs

/-- Modelled from the spec (§4.1 Import Resolution, claim C4): first match
over the lexicographically sorted file set, testing `n` substring of `q` or
`q.replace('/', '.').startswith(n)`.  Written for comparison with
`resolveImport`, which is the code's loop. -/
def specResolveImport (n : String) (keys : List String) : Option String :=
  (keys.insertionSort (fun a b => lexLeChars a.data b.data = true)).find?
    (fun q => pyContains q n || pyStartsWith (pyReplaceChar '/' '.' q) n)

/-! ### Graph store codec (lines 143–168 and 195–232) -/

/-- One entry of the serialized `nodes` list. -/
structure StoredNode where
  id : String
  type : String
  betweenness_centrality : ℚ
  closeness_centrality : ℚ
  degree_centrality : ℚ
deriving DecidableEq

/-- One entry of the serialized `edges` list. -/
structure StoredEdge where
  source : String
  target : String
  type : String
  weight : ℚ
deriving DecidableEq

/-- `_serialize_nodes`: one record per node in insertion order; the `type`
attribute defaults to `"unknown"`, the centrality attributes are the values
attached by `build_graph` (defaulting to `0` never happens here since the
attachment is total). -/
def serializeNodes (G : BGraph) : List StoredNode :=
  G.nodes.map (fun p =>
    { id := p.1
      type := p.2.getD "unknown"
      betweenness_centrality := G.toNxDiGraph.betweenness p.1
      closeness_centrality := G.toNxDiGraph.closeness p.1
      degree_centrality := G.toNxDiGraph.degreeCentrality p.1 })

/-- `_serialize_edges`: one record per edge; the builder never sets a
`weight` attribute, so the default `1` is stored. -/
def serializeEdges (G : BGraph) : List StoredEdge :=
  G.edges.map (fun e =>
    { source := e.1, target := e.2.1, type := e.2.2, weight := 1 })

/-- Graph rebuilt by `load_graph_from_data`: nodes carry their stored
attributes (`none` for a node created implicitly by `add_edge`), edges
carry `type` and `weight`. -/
structure LoadedGraph where
  nodes : List (String × Option (String × ℚ × ℚ × ℚ))
  edges : List (String × String × String × ℚ)
deriving DecidableEq

def LoadedGraph.nodeIds (G : LoadedGraph) : List String := G.nodes.map Prod.fst

def LoadedGraph.edgeKeys (G : LoadedGraph) : List (String × String) :=
  G.edges.map (fun e => (e.1, e.2.1))

def LoadedGraph.addNode (G : LoadedGraph) (nd : StoredNode) : LoadedGraph :=
  let a := (nd.type, nd.betweenness_centrality, nd.closeness_centrality,
    nd.degree_centrality)
  let upd := G.nodes.map (fun p => if p.1 = nd.id then (nd.id, some a) else p)
  if nd.id ∈ G.nodeIds then { G with nodes := upd }
  else { G with nodes := G.nodes ++ [(nd.id, some a)] }

def LoadedGraph.ensureNode (G : LoadedGraph) (id : String) : LoadedGraph :=
  if id ∈ G.nodeIds then G else { G with nodes := G.nodes ++ [(id, none)] }

def LoadedGraph.addEdge (G : LoadedGraph) (e : StoredEdge) : LoadedGraph :=
  let G1 := (G.ensureNode e.source).ensureNode e.target
  let upd := G1.edges.map (fun x =>
    if x.1 = e.source ∧ x.2.1 = e.target then (e.source, e.target, e.type, e.weight)
    else x)
  if (e.source, e.target) ∈ G1.edgeKeys then { G1 with edges := upd }
  else { G1 with edges := G1.edges ++ [(e.source, e.target, e.type, e.weight)] }

/-- `DependencyGraphBuilder.load_graph_from_data` applied to a stored
document: add the stored nodes, then the stored edges. -/
def loadGraphFromData (nodes : List StoredNode) (edges : List StoredEdge) :
    LoadedGraph :=
  let G1 := nodes.foldl (fun g nd => g.addNode nd) ⟨[], []⟩
  edges.foldl (fun g e => g.addEdge e) G1

/-- Well-formedness of a builder graph: no duplicate node ids, no duplicate
edge keys, edge endpoints present as nodes (all maintained by networkx). -/
def BInv (G : BGraph) : Prop :=
  G.nodeIds.Nodup ∧ G.edgeKeys.Nodup
    ∧ ∀ e ∈ G.edges, e.1 ∈ G.nodeIds ∧ e.2.1 ∈ G.nodeIds

/-- A parse-result value whose `'error'` key is set and whose other fields
are empty. -/
def errAst : AstData := ⟨true, [], [], [], []⟩

/-- Replacing the data of key `p` by the bare error record. -/
def scrub (p : String) (ast : List (String × AstData)) :
    List (String × AstData) :=
  ast.map (fun q => if q.1 = p then (q.1, errAst) else q)

/-! ### Concrete instances used in counterexamples and witnesses -/

/-- A two-node graph with a single edge `a → b`. -/
def wG : NxDiGraph := ⟨["a", "b"], [("a", "b")]⟩

/-- A failed parse next to a file importing it. -/
def c3Ast : List (String × AstData) :=
  [("bad", ⟨true, [], [], [], []⟩), ("a", ⟨false, [], [], [], ["bad"]⟩)]

/-- Two files importing each other. -/
def c7Ast : List (String × AstData) :=
  [("a", ⟨false, [], [], [], ["b"]⟩), ("b", ⟨false, [], [], [], ["a"]⟩)]

/-- A single file importing itself. -/
def c8Ast : List (String × AstData) :=
  [("a", ⟨false, [], [], [], ["a"]⟩)]

/-- A single file with no symbols and no imports. -/
def c9Ast : List (String × AstData) :=
  [("a", ⟨false, [], [], [], []⟩)]

/-! ### Impact set (claim C1) -/

/-- The guarded accumulation loops of `analyze_impact` compute the union of
the start set with the images of the in-graph list members. -/
lemma foldl_union_filter (D : String → Finset String) (ns : List String) :
    ∀ (l : List String) (S : Finset String),
      l.foldl (fun S f => if f ∈ ns then S ∪ D f else S) S
        = S ∪ (l.toFinset.filter (fun f => f ∈ ns)).biUnion D := by
  intro l
  induction l with
  | nil => intro S; simp
  | cons a t ih =>
      intro S
      rw [List.foldl_cons, ih, List.toFinset_cons, Finset.filter_insert]
      by_cases h : a ∈ ns
      · rw [if_pos h, if_pos h, Finset.biUnion_insert]
        ext x
        simp only [Finset.mem_union, Finset.mem_biUnion]
        tauto
      · rw [if_neg h, if_neg h]

/-- C1, counterexample: a changed file that is not a node of the graph stays
in the impacted set (line 74 starts from the full changed list), so the
impacted set is not `Seed ∪ descendants(Seed) ∪ ancestors(Seed)`: on the
empty graph with `changed = ["x"]` the code returns `{"x"}` while the
claim's formula gives `∅`. -/
theorem C1_counterexample :
    analyzeImpacted ⟨[], []⟩ ["x"] ≠ specImpacted ⟨[], []⟩ ["x"] := by decide

/-- C1, amended: `analyze_impact` computes
`impacted = changed ∪ descendants(Seed) ∪ ancestors(Seed)` with
`Seed = changed ∩ V`; files absent from the graph contribute no descendants
or ancestors but do remain in the impacted set. -/
theorem C1_impacted_set_formula (G : NxDiGraph) (changed : List String) :
    analyzeImpacted G changed
      = changed.toFinset
        ∪ (changed.toFinset.filter (fun f => f ∈ G.nodes)).biUnion G.descendants
        ∪ (changed.toFinset.filter (fun f => f ∈ G.nodes)).biUnion G.ancestors := by
  unfold analyzeImpacted
  rw [foldl_union_filter, foldl_union_filter]

/-! ### Risk classification on an empty score map (claim C2) -/

/-- C2: on the empty graph with no changed files the impacted set and the
score map are empty, so line 103 evaluates `max({}.values())`, which raises
`ValueError` — the call does not return risk `LOW`. -/
theorem C2_empty_scores_raise :
    analyzeRisk ⟨[], []⟩ [] = Except.error ()
      ∧ analyzeImpacted ⟨[], []⟩ [] = ∅ := by
  have h1 : scoresDom ⟨[], []⟩ [] = ∅ := by decide
  have h2 : highRisk ⟨[], []⟩ [] = ∅ := by
    unfold highRisk
    rw [h1, Finset.filter_empty]
  refine ⟨?_, by decide⟩
  unfold analyzeRisk
  rw [h1, h2]
  simp

/-! ### Import resolution (claim C4) -/

/-- C4, counterexample: the loop at line 66 iterates `ast_trees.keys()` in
dict insertion order, not sorted order, so the resolved target depends on
the insertion order; and the code's second disjunct tests
`q.replace('/', '.').startswith(n.replace('.', '/'))`, not the claim's
`startswith(n)`.  With keys `["zz", "bb", "ab"]` the code resolves import
`"b"` to `"bb"` while the claim's sorted-order rule picks `"ab"`. -/
theorem C4_counterexample :
    resolveImport "b" ["bb", "ab"] ≠ resolveImport "b" ["ab", "bb"]
      ∧ resolveImport "b" ["zz", "bb", "ab"]
          ≠ specResolveImport "b" ["zz", "bb", "ab"] := by
  constructor <;> decide

/-- C4, amended: import resolution selects the first key in the map's
iteration (insertion) order satisfying the code's disjunction — `n`
substring of `q`, or `q` with `/`→`.` starting with `n` with `.`→`/` — and
stops at the first match; the result therefore depends on insertion
order. -/
theorem C4_first_match_resolution (n : String) (keys : List String) (q : String) :
    resolveImport n keys = some q
      ↔ matchImport n q = true
        ∧ ∃ l1 l2, keys = l1 ++ q :: l2 ∧ ∀ x ∈ l1, matchImport n x = false := by
  unfold resolveImport
  rw [List.find?_eq_some]
  simp [Bool.not_eq_true']

/-- Witness for `C4_first_match_resolution` at a concrete instance. -/
theorem C4_witness :
    resolveImport "b" ["zz", "bb", "ab"] = some "bb"
      ↔ matchImport "b" "bb" = true
        ∧ ∃ l1 l2, ["zz", "bb", "ab"] = l1 ++ "bb" :: l2
            ∧ ∀ x ∈ l1, matchImport "b" x = false :=
  C4_first_match_resolution "b" ["zz", "bb", "ab"] "bb"

/-! ### `get_node_impact` (claim C10) -/

/-- C10: `get_node_impact` returns the error dict for a node not in the
graph, and otherwise a record whose `total_impact` is the number of
descendants plus the number of ancestors. -/
theorem C10_get_node_impact (G : NxDiGraph) (node_id : String) :
    (node_id ∉ G.nodes → getNodeImpact G node_id = .error "Node not found")
      ∧ (node_id ∈ G.nodes →
          getNodeImpact G node_id
            = .ok node_id (G.descendants node_id) (G.ancestors node_id)
                (G.indeg node_id) (G.outdeg node_id)
                ((G.descendants node_id).card + (G.ancestors node_id).card)) := by
  unfold getNodeImpact
  constructor
  · intro h; rw [if_pos h]
  · intro h; rw [if_neg (by simp [h])]

/-- Witness for `C10_get_node_impact` on a two-node graph. -/
theorem C10_witness :
    getNodeImpact ⟨["a", "b"], [("a", "b")]⟩ "zz" = .error "Node not found"
      ∧ getNodeImpact ⟨["a", "b"], [("a", "b")]⟩ "a"
          = .ok "a" (NxDiGraph.descendants ⟨["a", "b"], [("a", "b")]⟩ "a")
              (NxDiGraph.ancestors ⟨["a", "b"], [("a", "b")]⟩ "a")
              (NxDiGraph.indeg ⟨["a", "b"], [("a", "b")]⟩ "a")
              (NxDiGraph.outdeg ⟨["a", "b"], [("a", "b")]⟩ "a")
              ((NxDiGraph.descendants ⟨["a", "b"], [("a", "b")]⟩ "a").card
                + (NxDiGraph.ancestors ⟨["a", "b"], [("a", "b")]⟩ "a").card) :=
  ⟨(C10_get_node_impact ⟨["a", "b"], [("a", "b")]⟩ "zz").1 (by decide),
    (C10_get_node_impact ⟨["a", "b"], [("a", "b")]⟩ "a").2 (by decide)⟩

/-! ### Criticality scoring (claim C5) -/

/-- C5: every impacted node that is not a changed file receives the score
`clamp(0.4·indeg/max_deg + 0.2·outdeg/max_deg + 0.3·betweenness +
0.1·closeness, 0, 1)` with `max_deg` the maximal total degree clamped to at
least `1`; the changed files themselves are never scored.  (The `except`
fallback score `0.5` of `calculate_criticality` is unreachable for a node
of the graph, where every step of the computation is total.) -/
theorem C5_criticality_formula (G : NxDiGraph) (changed : List String)
    (v : String) :
    (v ∈ analyzeImpacted G changed → v ∉ changed →
      scoreMap G changed v
        = some (clamp01
            (2 / 5 * ((G.indeg v : ℚ) / ((max 1 (G.V.sup G.deg) : ℕ) : ℚ))
              + 1 / 5 * ((G.outdeg v : ℚ) / ((max 1 (G.V.sup G.deg) : ℕ) : ℚ))
              + 3 / 10 * G.betweenness v
              + 1 / 10 * G.closeness v)))
      ∧ (v ∈ changed → scoreMap G changed v = none) := by
  constructor
  · intro h1 h2
    unfold scoreMap
    rw [if_pos ⟨h1, h2⟩]
    unfold calculateCriticality NxDiGraph.maxDegree
    congr 1
    ring_nf
  · intro h
    unfold scoreMap
    rw [if_neg (by simp [h])]

/-- Witness for `C5_criticality_formula` on the graph `a → b` with `a`
changed. -/
theorem C5_witness :
    (scoreMap wG ["a"] "b"
        = some (clamp01
            (2 / 5 * ((wG.indeg "b" : ℚ) / ((max 1 (wG.V.sup wG.deg) : ℕ) : ℚ))
              + 1 / 5 * ((wG.outdeg "b" : ℚ) / ((max 1 (wG.V.sup wG.deg) : ℕ) : ℚ))
              + 3 / 10 * wG.betweenness "b"
              + 1 / 10 * wG.closeness "b")))
      ∧ scoreMap wG ["a"] "a" = none :=
  ⟨(C5_criticality_formula wG ["a"] "b").1 (by decide) (by decide),
    (C5_criticality_formula wG ["a"] "a").2 (by decide)⟩

/-! ### Builder graph lemmas -/

/-- A fold preserves any property its steps preserve. -/
lemma foldl_preserves {β α : Type} (P : β → Prop) (step : β → α → β)
    (l : List α) (h : ∀ b a, a ∈ l → P b → P (step b a)) :
    ∀ b, P b → P (l.foldl step b) := by
  induction l with
  | nil => intro b hb; exact hb
  | cons a t ih =>
      intro b hb
      rw [List.foldl_cons]
      exact ih (fun b x hx => h b x (List.mem_cons_of_mem a hx)) _
        (h b a (List.mem_cons_self a t) hb)

lemma addNode_nodeIds (G : BGraph) (id ty : String) :
    (G.addNode id ty).nodeIds
      = if id ∈ G.nodeIds then G.nodeIds else G.nodeIds ++ [id] := by
  by_cases h : id ∈ G.nodeIds
  · rw [if_pos h]
    unfold BGraph.addNode
    rw [if_pos h]
    unfold BGraph.nodeIds
    dsimp only
    rw [List.map_map]
    refine List.map_congr_left ?_
    intro p _
    by_cases hp : p.1 = id
    · simp [hp]
    · simp [hp]
  · rw [if_neg h]
    unfold BGraph.addNode
    rw [if_neg h]
    unfold BGraph.nodeIds
    simp

lemma addNode_edges (G : BGraph) (id ty : String) :
    (G.addNode id ty).edges = G.edges := by
  unfold BGraph.addNode
  by_cases h : id ∈ G.nodeIds
  · rw [if_pos h]
  · rw [if_neg h]

lemma ensureNode_nodeIds (G : BGraph) (id : String) :
    (G.ensureNode id).nodeIds
      = if id ∈ G.nodeIds then G.nodeIds else G.nodeIds ++ [id] := by
  unfold BGraph.ensureNode
  by_cases h : id ∈ G.nodeIds
  · rw [if_pos h, if_pos h]
  · rw [if_neg h, if_neg h]
    unfold BGraph.nodeIds
    simp

lemma ensureNode_edges (G : BGraph) (id : String) :
    (G.ensureNode id).edges = G.edges := by
  unfold BGraph.ensureNode
  by_cases h : id ∈ G.nodeIds
  · rw [if_pos h]
  · rw [if_neg h]

lemma mem_nodeIds_ensureNode (G : BGraph) (id a : String) (h : a ∈ G.nodeIds) :
    a ∈ (G.ensureNode id).nodeIds := by
  rw [ensureNode_nodeIds]
  split
  · exact h
  · exact List.mem_append_left _ h

lemma self_mem_nodeIds_ensureNode (G : BGraph) (id : String) :
    id ∈ (G.ensureNode id).nodeIds := by
  rw [ensureNode_nodeIds]
  split
  · assumption
  · exact List.mem_append_right _ (List.mem_singleton.mpr rfl)

lemma nodup_nodeIds_ensureNode (G : BGraph) (id : String)
    (h : G.nodeIds.Nodup) : (G.ensureNode id).nodeIds.Nodup := by
  rw [ensureNode_nodeIds]
  split
  · exact h
  · next hmem => simp [List.nodup_append, h, hmem]

lemma mem_nodeIds_addNode (G : BGraph) (id ty a : String) (h : a ∈ G.nodeIds) :
    a ∈ (G.addNode id ty).nodeIds := by
  rw [addNode_nodeIds]
  split
  · exact h
  · exact List.mem_append_left _ h

lemma nodup_nodeIds_addNode (G : BGraph) (id ty : String)
    (h : G.nodeIds.Nodup) : (G.addNode id ty).nodeIds.Nodup := by
  rw [addNode_nodeIds]
  split
  · exact h
  · next hmem => simp [List.nodup_append, h, hmem]

lemma addEdge_nodes (G : BGraph) (u v ty : String) :
    (G.addEdge u v ty).nodes = ((G.ensureNode u).ensureNode v).nodes := by
  unfold BGraph.addEdge
  by_cases h : (u, v) ∈ ((G.ensureNode u).ensureNode v).edgeKeys
  · rw [if_pos h]
  · rw [if_neg h]

lemma addEdge_nodeIds (G : BGraph) (u v ty : String) :
    (G.addEdge u v ty).nodeIds = ((G.ensureNode u).ensureNode v).nodeIds := by
  unfold BGraph.nodeIds
  rw [addEdge_nodes]

lemma addEdge_edgeKeys (G : BGraph) (u v ty : String) :
    (G.addEdge u v ty).edgeKeys
      = if (u, v) ∈ G.edgeKeys then G.edgeKeys else G.edgeKeys ++ [(u, v)] := by
  have hek : ((G.ensureNode u).ensureNode v).edgeKeys = G.edgeKeys := by
    unfold BGraph.edgeKeys
    rw [ensureNode_edges, ensureNode_edges]
  unfold BGraph.addEdge
  dsimp only
  rw [hek]
  by_cases h : (u, v) ∈ G.edgeKeys
  · rw [if_pos h, if_pos h]
    unfold BGraph.edgeKeys
    rw [ensureNode_edges, ensureNode_edges]
    dsimp only
    rw [List.map_map]
    refine List.map_congr_left ?_
    intro e _
    by_cases he : e.1 = u ∧ e.2.1 = v
    · simp [he, he.1, he.2]
    · simp [he]
  · rw [if_neg h, if_neg h]
    unfold BGraph.edgeKeys
    rw [ensureNode_edges, ensureNode_edges]
    simp

lemma addEdge_edges_sub (G : BGraph) (u v ty : String) :
    ∀ e ∈ (G.addEdge u v ty).edges, e ∈ G.edges ∨ e = (u, v, ty) := by
  unfold BGraph.addEdge
  by_cases h : (u, v) ∈ ((G.ensureNode u).ensureNode v).edgeKeys
  · rw [if_pos h]
    intro e he
    dsimp only at he
    rw [ensureNode_edges, ensureNode_edges] at he
    obtain ⟨x, hx, rfl⟩ := List.mem_map.mp he
    by_cases hc : x.1 = u ∧ x.2.1 = v
    · rw [if_pos hc]; exact Or.inr rfl
    · rw [if_neg hc]; exact Or.inl hx
  · rw [if_neg h]
    intro e he
    dsimp only at he
    rw [ensureNode_edges, ensureNode_edges] at he
    rcases List.mem_append.mp he with h1 | h1
    · exact Or.inl h1
    · exact Or.inr (List.mem_singleton.mp h1)

lemma mem_nodeIds_addEdge (G : BGraph) (u v ty a : String)
    (h : a ∈ G.nodeIds) : a ∈ (G.addEdge u v ty).nodeIds := by
  rw [addEdge_nodeIds]
  exact mem_nodeIds_ensureNode _ _ _ (mem_nodeIds_ensureNode _ _ _ h)

lemma src_mem_nodeIds_addEdge (G : BGraph) (u v ty : String) :
    u ∈ (G.addEdge u v ty).nodeIds := by
  rw [addEdge_nodeIds]
  exact mem_nodeIds_ensureNode _ _ _ (self_mem_nodeIds_ensureNode _ _)

lemma tgt_mem_nodeIds_addEdge (G : BGraph) (u v ty : String) :
    v ∈ (G.addEdge u v ty).nodeIds := by
  rw [addEdge_nodeIds]
  exact self_mem_nodeIds_ensureNode _ _

lemma bInv_addNode (G : BGraph) (id ty : String) (h : BInv G) :
    BInv (G.addNode id ty) := by
  obtain ⟨h1, h2, h3⟩ := h
  refine ⟨nodup_nodeIds_addNode G id ty h1, ?_, ?_⟩
  · unfold BGraph.edgeKeys
    rw [addNode_edges]
    exact h2
  · intro e he
    rw [addNode_edges] at he
    exact ⟨mem_nodeIds_addNode _ _ _ _ (h3 e he).1,
      mem_nodeIds_addNode _ _ _ _ (h3 e he).2⟩

lemma bInv_addEdge (G : BGraph) (u v ty : String) (h : BInv G) :
    BInv (G.addEdge u v ty) := by
  obtain ⟨h1, h2, h3⟩ := h
  refine ⟨?_, ?_, ?_⟩
  · rw [addEdge_nodeIds]
    exact nodup_nodeIds_ensureNode _ _ (nodup_nodeIds_ensureNode _ _ h1)
  · rw [addEdge_edgeKeys]
    split
    · exact h2
    · next hmem => simp [List.nodup_append, h2, hmem]
  · intro e he
    rcases addEdge_edges_sub G u v ty e he with h4 | h4
    · exact ⟨mem_nodeIds_addEdge _ _ _ _ _ (h3 e h4).1,
        mem_nodeIds_addEdge _ _ _ _ _ (h3 e h4).2⟩
    · rw [h4]
      exact ⟨src_mem_nodeIds_addEdge _ _ _ _, tgt_mem_nodeIds_addEdge _ _ _ _⟩

lemma foldl_addNode_edges {α : Type} (f : α → String) (ty : String) :
    ∀ (l : List α) (g : BGraph),
      (l.foldl (fun g x => BGraph.addNode g (f x) ty) g).edges = g.edges := by
  intro l
  induction l with
  | nil => intro g; rfl
  | cons a t ih =>
      intro g
      rw [List.foldl_cons, ih, addNode_edges]

lemma addFileNodes_edges (G : BGraph) (p : String) (d : AstData) :
    (addFileNodes G p d).edges = G.edges := by
  unfold addFileNodes
  by_cases h : d.error
  · rw [if_pos h]
  · rw [if_neg h]
    dsimp only
    rw [foldl_addNode_edges, foldl_addNode_edges, foldl_addNode_edges,
      addNode_edges]

lemma bInv_addFileNodes (G : BGraph) (p : String) (d : AstData) (h : BInv G) :
    BInv (addFileNodes G p d) := by
  unfold addFileNodes
  by_cases herr : d.error
  · rw [if_pos herr]; exact h
  · rw [if_neg herr]
    dsimp only
    refine foldl_preserves BInv _ _ (fun b a _ hb => bInv_addNode b _ _ hb) _ ?_
    refine foldl_preserves BInv _ _ (fun b a _ hb => bInv_addNode b _ _ hb) _ ?_
    refine foldl_preserves BInv _ _ (fun b a _ hb => bInv_addNode b _ _ hb) _ ?_
    exact bInv_addNode G p "file" h

lemma bInv_addImportEdges (keys : List String) (G : BGraph) (p : String)
    (d : AstData) (h : BInv G) : BInv (addImportEdges keys G p d) := by
  unfold addImportEdges
  by_cases herr : d.error
  · rw [if_pos herr]; exact h
  · rw [if_neg herr]
    refine foldl_preserves BInv _ _ (fun b a _ hb => ?_) _ h
    cases hres : resolveImport a keys with
    | none => simpa [hres] using hb
    | some other => simpa [hres] using bInv_addEdge b p other "import" hb

lemma bInv_buildGraph (ast : List (String × AstData)) : BInv (buildGraph ast) := by
  unfold buildGraph
  refine foldl_preserves BInv _ _
    (fun b a _ hb => bInv_addImportEdges _ b _ _ hb) _ ?_
  refine foldl_preserves BInv _ _
    (fun b a _ hb => bInv_addFileNodes b _ _ hb) _ ?_
  refine ⟨List.nodup_nil, List.nodup_nil, ?_⟩
  intro e he
  simp at he

lemma buildGraph_closed (ast : List (String × AstData)) :
    (buildGraph ast).toNxDiGraph.Closed := by
  obtain ⟨-, -, hcl⟩ := bInv_buildGraph ast
  intro e he
  obtain ⟨x, hx, rfl⟩ := List.mem_map.mp he
  exact ⟨(hcl x hx).1, (hcl x hx).2⟩

/-! ### Shape of the edges the builder produces (claims C3, C8) -/

/-- Every edge the per-file import loop adds leaves the current file,
targets a dict key, and has kind `import`. -/
lemma import_fold_edges_shape (keys : List String) (p : String) :
    ∀ (l : List String) (g : BGraph),
      ∀ e ∈ (l.foldl (fun g imp =>
          match resolveImport imp keys with
          | some other => g.addEdge p other "import"
          | none => g) g).edges,
        e ∈ g.edges ∨ (e.1 = p ∧ e.2.1 ∈ keys ∧ e.2.2 = "import") := by
  intro l
  induction l with
  | nil => intro g e he; exact Or.inl he
  | cons imp t ih =>
      intro g e he
      rw [List.foldl_cons] at he
      cases hres : resolveImport imp keys with
      | none =>
          rw [hres] at he
          exact ih g e he
      | some other =>
          rw [hres] at he
          rcases ih _ e he with h1 | h1
          · rcases addEdge_edges_sub g p other "import" e h1 with h2 | h2
            · exact Or.inl h2
            · refine Or.inr ⟨by rw [h2], ?_, by rw [h2]⟩
              rw [h2]
              exact List.mem_of_find?_eq_some hres
          · exact Or.inr h1

lemma addImportEdges_edges_shape (keys : List String) (G : BGraph)
    (p : String) (d : AstData) :
    ∀ e ∈ (addImportEdges keys G p d).edges,
      e ∈ G.edges
        ∨ (e.1 = p ∧ d.error = false ∧ e.2.1 ∈ keys ∧ e.2.2 = "import") := by
  unfold addImportEdges
  by_cases herr : d.error
  · rw [if_pos herr]
    intro e he
    exact Or.inl he
  · rw [if_neg herr]
    intro e he
    rcases import_fold_edges_shape keys p d.imports G e he with h1 | h1
    · exact Or.inl h1
    · exact Or.inr ⟨h1.1, Bool.eq_false_iff.mpr herr, h1.2.1, h1.2.2⟩

/-- Every edge of a built graph leaves a non-error file of the input map,
targets a key of the map, and carries kind `import`. -/
lemma buildGraph_edges_shape (ast : List (String × AstData)) :
    ∀ e ∈ (buildGraph ast).edges,
      e.1 ∈ (ast.filter (fun q => q.2.error = false)).map Prod.fst
        ∧ e.2.1 ∈ ast.map Prod.fst ∧ e.2.2 = "import" := by
  unfold buildGraph
  have h1 : (ast.foldl (fun g pd => addFileNodes g pd.1 pd.2)
      (⟨[], []⟩ : BGraph)).edges = [] := by
    refine foldl_preserves (fun g : BGraph => g.edges = []) _ _
      (fun b a _ hb => ?_) _ rfl
    show (addFileNodes b a.1 a.2).edges = []
    rw [addFileNodes_edges]
    exact hb
  refine foldl_preserves
    (fun g : BGraph => ∀ e ∈ g.edges,
      e.1 ∈ (ast.filter (fun q => q.2.error = false)).map Prod.fst
        ∧ e.2.1 ∈ ast.map Prod.fst ∧ e.2.2 = "import") _ ast
    (fun b a ha hb => ?_) _ ?_
  · intro e he
    rcases addImportEdges_edges_shape (ast.map Prod.fst) b a.1 a.2 e he with h2 | h2
    · exact hb e h2
    · refine ⟨?_, h2.2.2.1, h2.2.2.2⟩
      rw [h2.1]
      exact List.mem_map_of_mem Prod.fst (List.mem_filter.mpr ⟨ha, by simp [h2.2.1]⟩)
  · intro e he
    rw [h1] at he
    simp at he

/-- C8, counterexample: a file importing itself produces a self-loop — with
`ast_trees = {"a": {imports: ["a"]}}` the import `"a"` matches the key
`"a"` itself (substring test), and no guard prevents `add_edge("a", "a")`. -/
theorem C8_counterexample :
    ("a", "a", "import") ∈ (buildGraph c8Ast).edges := by decide

/-- C8, amended: the builder can introduce self-loops (an import that
resolves to the importing file itself), and an import edge is added even
when its target is not yet in the node set (`add_edge` then creates the
node).  What does hold: every edge of the built graph goes from a non-error
file of the input map to some key of the map and has kind `import`. -/
theorem C8_edge_shape (ast : List (String × AstData))
    (e : String × String × String) (he : e ∈ (buildGraph ast).edges) :
    e.1 ∈ (ast.filter (fun q => q.2.error = false)).map Prod.fst
      ∧ e.2.1 ∈ ast.map Prod.fst ∧ e.2.2 = "import" :=
  buildGraph_edges_shape ast e he

/-- Witness for `C8_edge_shape` on the two-file instance. -/
theorem C8_witness :
    ("a", "b", "import").1
        ∈ (c7Ast.filter (fun q => q.2.error = false)).map Prod.fst
      ∧ ("a", "b", "import").2.1 ∈ c7Ast.map Prod.fst
      ∧ ("a", "b", "import").2.2 = "import" :=
  C8_edge_shape c7Ast ("a", "b", "import") (by decide)

/-! ### Error files contribute nothing of their own (claim C3) -/

/-- In a python dict (no duplicate keys) the data of a key is unique. -/
lemma key_data_unique {p : String} {d d' : AstData} :
    ∀ {l : List (String × AstData)}, (l.map Prod.fst).Nodup →
      (p, d) ∈ l → (p, d') ∈ l → d = d' := by
  intro l
  induction l with
  | nil => simp
  | cons a t ih =>
      intro hnd h1 h2
      rw [List.map_cons, List.nodup_cons] at hnd
      rcases List.mem_cons.mp h1 with h1 | h1 <;>
        rcases List.mem_cons.mp h2 with h2 | h2
      · rw [← h1] at h2
        exact (Prod.mk.injEq _ _ _ _).mp h2.symm |>.2
      · exact absurd (List.mem_map_of_mem Prod.fst h2)
          (by rw [← h1] at hnd; exact hnd.1)
      · exact absurd (List.mem_map_of_mem Prod.fst h1)
          (by rw [← h2] at hnd; exact hnd.1)
      · exact ih hnd.2 h1 h2

lemma scrub_keys (p : String) (ast : List (String × AstData)) :
    (scrub p ast).map Prod.fst = ast.map Prod.fst := by
  unfold scrub
  rw [List.map_map]
  refine List.map_congr_left ?_
  intro q _
  by_cases h : q.1 = p
  · simp [h]
  · simp [h]

lemma pass1_scrub (p : String) (ast : List (String × AstData))
    (h : ∀ q ∈ ast, q.1 = p → q.2.error = true) :
    ∀ g : BGraph,
      (scrub p ast).foldl (fun g pd => addFileNodes g pd.1 pd.2) g
        = ast.foldl (fun g pd => addFileNodes g pd.1 pd.2) g := by
  induction ast with
  | nil => intro g; rfl
  | cons a t ih =>
      intro g
      unfold scrub
      rw [List.map_cons, List.foldl_cons, List.foldl_cons]
      have hstep : addFileNodes g (if a.1 = p then (a.1, errAst) else a).1
          (if a.1 = p then (a.1, errAst) else a).2 = addFileNodes g a.1 a.2 := by
        by_cases hp : a.1 = p
        · rw [if_pos hp]
          have ha : a.2.error = true := h a (List.mem_cons_self a t) hp
          unfold addFileNodes
          rw [if_pos ha]
          rfl
        · rw [if_neg hp]
      rw [hstep]
      exact ih (fun q hq => h q (List.mem_cons_of_mem a hq)) _

lemma pass2_scrub (keys : List String) (p : String)
    (ast : List (String × AstData))
    (h : ∀ q ∈ ast, q.1 = p → q.2.error = true) :
    ∀ g : BGraph,
      (scrub p ast).foldl (fun g pd => addImportEdges keys g pd.1 pd.2) g
        = ast.foldl (fun g pd => addImportEdges keys g pd.1 pd.2) g := by
  induction ast with
  | nil => intro g; rfl
  | cons a t ih =>
      intro g
      unfold scrub
      rw [List.map_cons, List.foldl_cons, List.foldl_cons]
      have hstep : addImportEdges keys g (if a.1 = p then (a.1, errAst) else a).1
          (if a.1 = p then (a.1, errAst) else a).2
            = addImportEdges keys g a.1 a.2 := by
        by_cases hp : a.1 = p
        · rw [if_pos hp]
          have ha : a.2.error = true := h a (List.mem_cons_self a t) hp
          unfold addImportEdges
          rw [if_pos ha]
          rfl
        · rw [if_neg hp]
      rw [hstep]
      exact ih (fun q hq => h q (List.mem_cons_of_mem a hq)) _

/-- C3, counterexample: an error file can appear in the built graph after
all — with `{"bad": {error: ...}, "a": {imports: ["bad"]}}` the import loop
iterates over all keys of `ast_trees` (error files included), resolves
`"bad"` to the error file, and `add_edge` creates the node: the graph gets
node `"bad"` and edge `"a" → "bad"`. -/
theorem C3_counterexample :
    "bad" ∈ (buildGraph c3Ast).nodeIds
      ∧ ("a", "bad", "import") ∈ (buildGraph c3Ast).edges := by
  constructor <;> decide

/-- C3, amended: a file whose parse result has the error tag contributes
nothing through its own data — the built graph is unchanged when its
functions, classes and imports are erased — and no edge leaves it; but it
can still enter the graph as an (untyped) node and be the target of import
edges resolved from other files. -/
theorem C3_error_file_inert (ast : List (String × AstData)) (p : String)
    (d : AstData) (hnd : (ast.map Prod.fst).Nodup) (hmem : (p, d) ∈ ast)
    (herr : d.error = true) :
    (∀ e ∈ (buildGraph ast).edges, e.1 ≠ p)
      ∧ buildGraph ast = buildGraph (scrub p ast) := by
  have hkey : ∀ q ∈ ast, q.1 = p → q.2.error = true := by
    intro q hq hq1
    have hq' : (p, q.2) ∈ ast := by
      rw [← hq1]
      exact hq
    rw [key_data_unique hnd hq' hmem]
    exact herr
  constructor
  · intro e he hep
    have h1 := (buildGraph_edges_shape ast e he).1
    rw [hep] at h1
    obtain ⟨q, hq, hq1⟩ := List.mem_map.mp h1
    rw [List.mem_filter] at hq
    have : q.2.error = true := hkey q hq.1 hq1
    rw [this] at hq
    simp at hq
  · unfold buildGraph
    rw [scrub_keys, pass1_scrub p ast hkey, pass2_scrub (ast.map Prod.fst) p ast hkey]

/-- Witness for `C3_error_file_inert` on the concrete two-file instance. -/
theorem C3_witness :
    (∀ e ∈ (buildGraph c3Ast).edges, e.1 ≠ "bad")
      ∧ buildGraph c3Ast = buildGraph (scrub "bad" c3Ast) :=
  C3_error_file_inert c3Ast "bad" errAst (by decide) (by decide) (by decide)

/-! ### Store codec roundtrip (claim C6) -/

lemma serializeNodes_ids (G : BGraph) :
    (serializeNodes G).map (fun nd => nd.id) = G.nodeIds := by
  unfold serializeNodes BGraph.nodeIds
  rw [List.map_map]
  rfl

lemma serializeEdges_keys (G : BGraph) :
    (serializeEdges G).map (fun e => (e.source, e.target)) = G.edgeKeys := by
  unfold serializeEdges BGraph.edgeKeys
  rw [List.map_map]
  rfl

/-- Adding stored nodes with fresh, pairwise distinct ids appends them. -/
lemma load_nodes_fold :
    ∀ (sn : List StoredNode) (L : LoadedGraph),
      (∀ nd ∈ sn, nd.id ∉ L.nodeIds) → (sn.map (fun nd => nd.id)).Nodup →
      sn.foldl (fun g nd => g.addNode nd) L
        = ⟨L.nodes ++ sn.map (fun nd =>
            (nd.id, some (nd.type, nd.betweenness_centrality,
              nd.closeness_centrality, nd.degree_centrality))), L.edges⟩ := by
  intro sn
  induction sn with
  | nil =>
      intro L _ _
      cases L with
      | mk ns es => simp
  | cons nd t ih =>
      intro L hmem hnd
      rw [List.map_cons, List.nodup_cons] at hnd
      rw [List.foldl_cons, List.map_cons]
      have h1 : L.addNode nd
          = ⟨L.nodes ++ [(nd.id, some (nd.type, nd.betweenness_centrality,
              nd.closeness_centrality, nd.degree_centrality))], L.edges⟩ := by
        unfold LoadedGraph.addNode
        rw [if_neg (hmem nd (List.mem_cons_self _ _))]
      have h2 : ∀ m ∈ t, m.id
          ∉ (LoadedGraph.mk (L.nodes ++ [(nd.id, some (nd.type,
              nd.betweenness_centrality, nd.closeness_centrality,
              nd.degree_centrality))]) L.edges).nodeIds := by
        intro m hm
        unfold LoadedGraph.nodeIds
        rw [List.map_append]
        intro hc
        rcases List.mem_append.mp hc with hc | hc
        · exact hmem m (List.mem_cons_of_mem _ hm) hc
        · rw [List.map_singleton, List.mem_singleton] at hc
          have hc' : m.id = nd.id := hc
          exact hnd.1 (hc' ▸ List.mem_map_of_mem (fun nd => nd.id) hm)
      rw [h1, ih _ h2 hnd.2]
      simp

/-- Adding stored edges whose endpoints are present and whose keys are
fresh and pairwise distinct appends them. -/
lemma load_edges_fold :
    ∀ (se : List StoredEdge) (L : LoadedGraph),
      (∀ e ∈ se, e.source ∈ L.nodeIds ∧ e.target ∈ L.nodeIds) →
      (∀ e ∈ se, (e.source, e.target) ∉ L.edgeKeys) →
      (se.map (fun e => (e.source, e.target))).Nodup →
      se.foldl (fun g e => g.addEdge e) L
        = ⟨L.nodes, L.edges
            ++ se.map (fun e => (e.source, e.target, e.type, e.weight))⟩ := by
  intro se
  induction se with
  | nil =>
      intro L _ _ _
      cases L with
      | mk ns es => simp
  | cons e t ih =>
      intro L hmem hkey hnd
      rw [List.map_cons, List.nodup_cons] at hnd
      rw [List.foldl_cons, List.map_cons]
      have hs : L.ensureNode e.source = L := by
        unfold LoadedGraph.ensureNode
        rw [if_pos (hmem e (List.mem_cons_self _ _)).1]
      have ht : L.ensureNode e.target = L := by
        unfold LoadedGraph.ensureNode
        rw [if_pos (hmem e (List.mem_cons_self _ _)).2]
      have h1 : L.addEdge e
          = ⟨L.nodes, L.edges ++ [(e.source, e.target, e.type, e.weight)]⟩ := by
        unfold LoadedGraph.addEdge
        rw [hs, ht, if_neg (hkey e (List.mem_cons_self _ _))]
      have hnids : (LoadedGraph.mk L.nodes
          (L.edges ++ [(e.source, e.target, e.type, e.weight)])).nodeIds
            = L.nodeIds := rfl
      have heks : (LoadedGraph.mk L.nodes
          (L.edges ++ [(e.source, e.target, e.type, e.weight)])).edgeKeys
            = L.edgeKeys ++ [(e.source, e.target)] := by
        unfold LoadedGraph.edgeKeys
        rw [List.map_append]
        rfl
      have h2 : ∀ m ∈ t, m.source
          ∈ (LoadedGraph.mk L.nodes
              (L.edges ++ [(e.source, e.target, e.type, e.weight)])).nodeIds
            ∧ m.target ∈ (LoadedGraph.mk L.nodes
              (L.edges ++ [(e.source, e.target, e.type, e.weight)])).nodeIds := by
        intro m hm
        rw [hnids]
        exact hmem m (List.mem_cons_of_mem _ hm)
      have h3 : ∀ m ∈ t, (m.source, m.target)
          ∉ (LoadedGraph.mk L.nodes
              (L.edges ++ [(e.source, e.target, e.type, e.weight)])).edgeKeys := by
        intro m hm
        rw [heks]
        intro hc
        rcases List.mem_append.mp hc with hc | hc
        · exact hkey m (List.mem_cons_of_mem _ hm) hc
        · rw [List.mem_singleton] at hc
          exact hnd.1 (hc ▸ List.mem_map_of_mem (fun e => (e.source, e.target)) hm)
      rw [h1, ih _ h2 h3 hnd.2]
      simp

/-- C6: decoding the encoded document of a built graph restores the node
list, the per-node centrality values, and the edge list with kinds (and the
default weight 1) exactly — encode/decode is lossless for graph structure,
edge kinds and centralities. -/
theorem C6_roundtrip (ast : List (String × AstData)) :
    loadGraphFromData (serializeNodes (buildGraph ast))
        (serializeEdges (buildGraph ast))
      = ⟨(buildGraph ast).nodes.map (fun p =>
            (p.1, some (p.2.getD "unknown",
              (buildGraph ast).toNxDiGraph.betweenness p.1,
              (buildGraph ast).toNxDiGraph.closeness p.1,
              (buildGraph ast).toNxDiGraph.degreeCentrality p.1))),
          (buildGraph ast).edges.map (fun e => (e.1, e.2.1, e.2.2, (1 : ℚ)))⟩ := by
  obtain ⟨hnd, hek, hcl⟩ := bInv_buildGraph ast
  unfold loadGraphFromData
  have h1 : (serializeNodes (buildGraph ast)).foldl
      (fun g nd => g.addNode nd) (⟨[], []⟩ : LoadedGraph)
        = ⟨(serializeNodes (buildGraph ast)).map (fun nd =>
            (nd.id, some (nd.type, nd.betweenness_centrality,
              nd.closeness_centrality, nd.degree_centrality))), []⟩ := by
    rw [load_nodes_fold _ _ (fun nd _ hc => by simp [LoadedGraph.nodeIds] at hc)
      (by rw [serializeNodes_ids]; exact hnd)]
    simp
  rw [h1]
  have hnids : (LoadedGraph.mk ((serializeNodes (buildGraph ast)).map (fun nd =>
      (nd.id, some (nd.type, nd.betweenness_centrality,
        nd.closeness_centrality, nd.degree_centrality)))) []).nodeIds
      = (buildGraph ast).nodeIds := by
    unfold LoadedGraph.nodeIds
    dsimp only
    rw [List.map_map]
    exact serializeNodes_ids (buildGraph ast)
  have h2 : (serializeEdges (buildGraph ast)).foldl (fun g e => g.addEdge e)
      (⟨(serializeNodes (buildGraph ast)).map (fun nd =>
          (nd.id, some (nd.type, nd.betweenness_centrality,
            nd.closeness_centrality, nd.degree_centrality))), []⟩ : LoadedGraph)
        = ⟨(serializeNodes (buildGraph ast)).map (fun nd =>
            (nd.id, some (nd.type, nd.betweenness_centrality,
              nd.closeness_centrality, nd.degree_centrality))),
           [] ++ (serializeEdges (buildGraph ast)).map (fun e =>
            (e.source, e.target, e.type, e.weight))⟩ := by
    refine load_edges_fold _ _ (fun e he => ?_) (fun e he hc => by simp [LoadedGraph.edgeKeys] at hc)
      (by rw [serializeEdges_keys]; exact hek)
    rw [hnids]
    unfold serializeEdges at he
    obtain ⟨x, hx, rfl⟩ := List.mem_map.mp he
    exact ⟨(hcl x hx).1, (hcl x hx).2⟩
  rw [h2]
  congr 1
  · unfold serializeNodes
    rw [List.map_map]
    rfl
  · unfold serializeEdges
    rw [List.nil_append, List.map_map]
    rfl

/-! ### Bounds on the networkx centralities (claims C7, C9) -/

/-- Concatenation of walks: walks through a fixed midpoint are at most all
walks of the combined length. -/
lemma numWalks_mul_le (G : NxDiGraph) (d2 : ℕ) (v : String) :
    ∀ (d1 : ℕ) (u w : String),
      G.numWalks d1 u w * G.numWalks d2 w v ≤ G.numWalks (d1 + d2) u v := by
  intro d1
  induction d1 with
  | zero =>
      intro u w
      by_cases h : u = w
      · subst h
        simp [NxDiGraph.numWalks]
      · simp [NxDiGraph.numWalks, h]
  | succ d1 ih =>
      intro u w
      have harith : d1 + 1 + d2 = (d1 + d2) + 1 := by omega
      rw [harith]
      simp only [NxDiGraph.numWalks]
      rw [Finset.sum_mul]
      exact Finset.sum_le_sum (fun x _ => ih x w)

lemma distO_spec (G : NxDiGraph) (u v : String) (d : ℕ)
    (h : G.distO u v = some d) : G.numWalks d u v ≠ 0 := by
  unfold NxDiGraph.distO at h
  simpa using List.find?_some h

lemma sigmaThrough_le_sigma (G : NxDiGraph) (u v w : String) :
    G.sigmaThrough u v w ≤ G.sigma u v := by
  unfold NxDiGraph.sigmaThrough NxDiGraph.sigma
  cases h1 : G.distO u w with
  | none => exact Nat.zero_le _
  | some d1 =>
      cases h2 : G.distO w v with
      | none => exact Nat.zero_le _
      | some d2 =>
          cases h3 : G.distO u v with
          | none => exact Nat.zero_le _
          | some d =>
              show (if d1 + d2 = d then G.numWalks d1 u w * G.numWalks d2 w v
                else 0) ≤ G.numWalks d u v
              by_cases hd : d1 + d2 = d
              · rw [if_pos hd, ← hd]
                exact numWalks_mul_le G d2 v d1 u w
              · rw [if_neg hd]
                exact Nat.zero_le _

lemma pairDep_nonneg (G : NxDiGraph) (u v w : String) : 0 ≤ G.pairDep u v w := by
  unfold NxDiGraph.pairDep
  split
  · exact le_refl 0
  · exact div_nonneg (Nat.cast_nonneg _) (Nat.cast_nonneg _)

lemma pairDep_le_one (G : NxDiGraph) (u v w : String) : G.pairDep u v w ≤ 1 := by
  unfold NxDiGraph.pairDep
  split
  · exact zero_le_one
  · next h =>
      rw [div_le_one (by exact_mod_cast Nat.pos_of_ne_zero h)]
      exact_mod_cast sigmaThrough_le_sigma G u v w

lemma rawBetweenness_nonneg (G : NxDiGraph) (w : String) :
    0 ≤ G.rawBetweenness w :=
  Finset.sum_nonneg (fun p _ => pairDep_nonneg G p.1 p.2 w)

lemma rawBetweenness_le_card (G : NxDiGraph) (w : String) :
    G.rawBetweenness w ≤ ((G.V.erase w).offDiag.card : ℚ) := by
  have h := Finset.sum_le_card_nsmul (G.V.erase w).offDiag
    (fun p => G.pairDep p.1 p.2 w) 1 (fun p _ => pairDep_le_one G p.1 p.2 w)
  simpa using h

lemma mul_self_sub_self (a : ℕ) : a * a - a = a * (a - 1) := by
  cases a with
  | zero => rfl
  | succ k => rw [Nat.succ_sub_one, Nat.mul_succ, Nat.add_sub_cancel]

lemma offDiag_card_erase (G : NxDiGraph) (w : String) (hw : w ∈ G.V) :
    (G.V.erase w).offDiag.card = (G.n - 1) * (G.n - 2) := by
  rw [Finset.offDiag_card, Finset.card_erase_of_mem hw, mul_self_sub_self]
  unfold NxDiGraph.n
  rw [Nat.sub_sub]

lemma betweenness_nonneg (G : NxDiGraph) (w : String) : 0 ≤ G.betweenness w := by
  unfold NxDiGraph.betweenness
  split
  · next h =>
      have hn : (2 : ℚ) < (G.n : ℚ) := by exact_mod_cast h
      exact div_nonneg (rawBetweenness_nonneg G w) (by nlinarith)
  · exact rawBetweenness_nonneg G w

lemma betweenness_le_one (G : NxDiGraph) (w : String) (hw : w ∈ G.V) :
    G.betweenness w ≤ 1 := by
  unfold NxDiGraph.betweenness
  split
  · next h =>
      have hn : (2 : ℚ) < (G.n : ℚ) := by exact_mod_cast h
      rw [div_le_one (by nlinarith)]
      calc G.rawBetweenness w
          ≤ ((G.V.erase w).offDiag.card : ℚ) := rawBetweenness_le_card G w
        _ = (((G.n - 1) * (G.n - 2) : ℕ) : ℚ) := by
              rw [offDiag_card_erase G w hw]
        _ = ((G.n : ℚ) - 1) * ((G.n : ℚ) - 2) := by
              rw [Nat.cast_mul, Nat.cast_sub (by omega), Nat.cast_sub (by omega)]
              norm_num
  · next h =>
      have h1 : (G.V.erase w).card ≤ 1 := by
        rw [Finset.card_erase_of_mem hw]
        unfold NxDiGraph.n at h
        omega
      have h2 : (G.V.erase w).offDiag.card = 0 := by
        rw [Finset.offDiag_card]
        rcases Nat.le_one_iff_eq_zero_or_eq_one.mp h1 with h3 | h3 <;> rw [h3]
      calc G.rawBetweenness w
          ≤ ((G.V.erase w).offDiag.card : ℚ) := rawBetweenness_le_card G w
        _ = 0 := by rw [h2]; norm_num
        _ ≤ 1 := zero_le_one

lemma distO_self (G : NxDiGraph) (u : String) : G.distO u u = some 0 := by
  unfold NxDiGraph.distO
  rw [List.range_succ_eq_map, List.find?_cons_of_pos]
  simp [NxDiGraph.numWalks]

lemma one_le_of_distO_ne (G : NxDiGraph) (x u : String) (hne : x ≠ u) (d : ℕ)
    (h : G.distO x u = some d) : 1 ≤ d := by
  rcases Nat.eq_zero_or_pos d with h0 | h0
  · subst h0
    have := distO_spec G x u 0 h
    simp [NxDiGraph.numWalks, hne] at this
  · exact h0

lemma mem_reachers_self (G : NxDiGraph) (u : String) (hu : u ∈ G.V) :
    u ∈ G.reachers u := by
  unfold NxDiGraph.reachers
  rw [Finset.mem_filter]
  exact ⟨hu, by rw [distO_self]; rfl⟩

lemma reachers_card_le (G : NxDiGraph) (u : String) :
    (G.reachers u).card ≤ G.n :=
  Finset.card_filter_le _ _

lemma totsp_ge (G : NxDiGraph) (u : String) (hu : u ∈ G.V) :
    (G.reachers u).card - 1 ≤ G.totsp u := by
  unfold NxDiGraph.totsp
  have h1 : ∑ w ∈ (G.reachers u).erase u, (G.distO w u).getD 0
      ≤ ∑ w ∈ G.reachers u, (G.distO w u).getD 0 :=
    Finset.sum_le_sum_of_subset (Finset.erase_subset _ _)
  have h2 : ((G.reachers u).erase u).card • 1
      ≤ ∑ w ∈ (G.reachers u).erase u, (G.distO w u).getD 0 := by
    refine Finset.card_nsmul_le_sum _ _ _ (fun x hx => ?_)
    rw [Finset.mem_erase] at hx
    have hx2 := hx.2
    unfold NxDiGraph.reachers at hx2
    rw [Finset.mem_filter] at hx2
    obtain ⟨d, hd⟩ := Option.isSome_iff_exists.mp hx2.2
    rw [hd]
    exact one_le_of_distO_ne G x u hx.1 d hd
  rw [Finset.card_erase_of_mem (mem_reachers_self G u hu)] at h2
  simp only [smul_eq_mul, mul_one] at h2
  omega

lemma closeness_nonneg (G : NxDiGraph) (u : String) (hu : u ∈ G.V) :
    0 ≤ G.closeness u := by
  unfold NxDiGraph.closeness
  split
  · next h =>
      have hr : 1 ≤ (G.reachers u).card :=
        Finset.card_pos.mpr ⟨u, mem_reachers_self G u hu⟩
      have hrq : (0 : ℚ) ≤ ((G.reachers u).card : ℚ) - 1 := by
        have : (1 : ℚ) ≤ ((G.reachers u).card : ℚ) := by exact_mod_cast hr
        linarith
      have hnq : (0 : ℚ) ≤ (G.n : ℚ) - 1 := by
        have : (1 : ℚ) < (G.n : ℚ) := by exact_mod_cast h.2
        linarith
      exact mul_nonneg (div_nonneg hrq (Nat.cast_nonneg _))
        (div_nonneg hrq hnq)
  · exact le_refl 0

lemma closeness_le_one (G : NxDiGraph) (u : String) (hu : u ∈ G.V) :
    G.closeness u ≤ 1 := by
  unfold NxDiGraph.closeness
  split
  · next h =>
      have hr : 1 ≤ (G.reachers u).card :=
        Finset.card_pos.mpr ⟨u, mem_reachers_self G u hu⟩
      have hrq : (0 : ℚ) ≤ ((G.reachers u).card : ℚ) - 1 := by
        have : (1 : ℚ) ≤ ((G.reachers u).card : ℚ) := by exact_mod_cast hr
        linarith
      have htq : (0 : ℚ) < (G.totsp u : ℚ) := by exact_mod_cast h.1
      have hnq : (0 : ℚ) < (G.n : ℚ) - 1 := by
        have : (1 : ℚ) < (G.n : ℚ) := by exact_mod_cast h.2
        linarith
      have f1 : ((G.reachers u).card : ℚ) - 1 ≤ (G.totsp u : ℚ) := by
        have := totsp_ge G u hu
        have hc : (((G.reachers u).card - 1 : ℕ) : ℚ)
            = ((G.reachers u).card : ℚ) - 1 := by
          rw [Nat.cast_sub hr]
          norm_num
        calc ((G.reachers u).card : ℚ) - 1
            = (((G.reachers u).card - 1 : ℕ) : ℚ) := hc.symm
          _ ≤ (G.totsp u : ℚ) := by exact_mod_cast this
      have f2 : ((G.reachers u).card : ℚ) - 1 ≤ (G.n : ℚ) - 1 := by
        have : ((G.reachers u).card : ℚ) ≤ (G.n : ℚ) := by
          exact_mod_cast reachers_card_le G u
        linarith
      have g1 : (((G.reachers u).card : ℚ) - 1) / (G.totsp u : ℚ) ≤ 1 := by
        rw [div_le_one htq]
        exact f1
      have g2 : (((G.reachers u).card : ℚ) - 1) / ((G.n : ℚ) - 1) ≤ 1 := by
        rw [div_le_one hnq]
        exact f2
      calc (((G.reachers u).card : ℚ) - 1) / (G.totsp u : ℚ)
            * ((((G.reachers u).card : ℚ) - 1) / ((G.n : ℚ) - 1))
          ≤ 1 * ((((G.reachers u).card : ℚ) - 1) / ((G.n : ℚ) - 1)) := by
            exact mul_le_mul_of_nonneg_right g1 (div_nonneg hrq (le_of_lt hnq))
        _ = (((G.reachers u).card : ℚ) - 1) / ((G.n : ℚ) - 1) := one_mul _
        _ ≤ 1 := g2
  · exact zero_le_one

lemma indeg_le_n (G : NxDiGraph) (v : String) (hc : G.Closed) :
    G.indeg v ≤ G.n := by
  unfold NxDiGraph.indeg NxDiGraph.n
  refine Finset.card_le_card_of_injOn (fun e => e.1) ?_ ?_
  · intro e he
    rw [Finset.mem_filter] at he
    have he1 : e ∈ G.edges := List.mem_toFinset.mp he.1
    exact List.mem_toFinset.mpr (hc e he1).1
  · intro e1 h1 e2 h2 heq
    rw [Finset.mem_coe, Finset.mem_filter] at h1 h2
    exact Prod.ext heq (h1.2.trans h2.2.symm)

lemma outdeg_le_n (G : NxDiGraph) (v : String) (hc : G.Closed) :
    G.outdeg v ≤ G.n := by
  unfold NxDiGraph.outdeg NxDiGraph.n
  refine Finset.card_le_card_of_injOn (fun e => e.2) ?_ ?_
  · intro e he
    rw [Finset.mem_filter] at he
    have he1 : e ∈ G.edges := List.mem_toFinset.mp he.1
    exact List.mem_toFinset.mpr (hc e he1).2
  · intro e1 h1 e2 h2 heq
    rw [Finset.mem_coe, Finset.mem_filter] at h1 h2
    exact Prod.ext (h1.2.trans h2.2.symm) heq

lemma degreeCentrality_nonneg (G : NxDiGraph) (v : String) :
    0 ≤ G.degreeCentrality v := by
  unfold NxDiGraph.degreeCentrality
  split
  · exact zero_le_one
  · next h =>
      refine div_nonneg (Nat.cast_nonneg _) ?_
      have : (1 : ℚ) < (G.n : ℚ) := by exact_mod_cast (by omega : 1 < G.n)
      linarith

lemma degreeCentrality_le_four (G : NxDiGraph) (v : String) (hc : G.Closed) :
    G.degreeCentrality v ≤ 4 := by
  unfold NxDiGraph.degreeCentrality
  split
  · norm_num
  · next h =>
      have hn : 2 ≤ G.n := by omega
      have hd : G.deg v ≤ 2 * G.n := by
        have h1 := indeg_le_n G v hc
        have h2 := outdeg_le_n G v hc
        unfold NxDiGraph.deg
        omega
      have hnq : (2 : ℚ) ≤ (G.n : ℚ) := by exact_mod_cast hn
      have hdq : (G.deg v : ℚ) ≤ 2 * (G.n : ℚ) := by exact_mod_cast hd
      rw [div_le_iff₀ (by linarith)]
      linarith

/-- C7, counterexample: on the built graph of two files importing each
other (`a ⇄ b`) networkx `degree_centrality` of `"a"` is `deg/(n-1) = 2/1
= 2`, outside `[0,1]` — the claim's bound fails for `degree_centrality`. -/
theorem C7_counterexample :
    ¬ ((buildGraph c7Ast).toNxDiGraph.degreeCentrality "a" ≤ 1) := by
  have hn : (buildGraph c7Ast).toNxDiGraph.n = 2 := by decide
  have hd : (buildGraph c7Ast).toNxDiGraph.deg "a" = 2 := by decide
  unfold NxDiGraph.degreeCentrality
  rw [hn, hd]
  norm_num

/-- C7, amended: for every node of a built graph, betweenness and closeness
centrality lie in `[0,1]`; degree centrality is nonnegative and bounded by
`4` (it is `deg(v)/(n-1)` with `deg(v) ≤ 2n`, so it can exceed `1`). -/
theorem C7_centrality_bounds (ast : List (String × AstData)) (v : String)
    (hv : v ∈ (buildGraph ast).toNxDiGraph.nodes) :
    0 ≤ (buildGraph ast).toNxDiGraph.betweenness v
      ∧ (buildGraph ast).toNxDiGraph.betweenness v ≤ 1
      ∧ 0 ≤ (buildGraph ast).toNxDiGraph.closeness v
      ∧ (buildGraph ast).toNxDiGraph.closeness v ≤ 1
      ∧ 0 ≤ (buildGraph ast).toNxDiGraph.degreeCentrality v
      ∧ (buildGraph ast).toNxDiGraph.degreeCentrality v ≤ 4 := by
  have hV : v ∈ (buildGraph ast).toNxDiGraph.V := List.mem_toFinset.mpr hv
  have hc := buildGraph_closed ast
  exact ⟨betweenness_nonneg _ v, betweenness_le_one _ v hV,
    closeness_nonneg _ v hV, closeness_le_one _ v hV,
    degreeCentrality_nonneg _ v, degreeCentrality_le_four _ v hc⟩

/-- Witness for `C7_centrality_bounds` on the two-file instance. -/
theorem C7_witness :
    0 ≤ (buildGraph c7Ast).toNxDiGraph.betweenness "a"
      ∧ (buildGraph c7Ast).toNxDiGraph.betweenness "a" ≤ 1
      ∧ 0 ≤ (buildGraph c7Ast).toNxDiGraph.closeness "a"
      ∧ (buildGraph c7Ast).toNxDiGraph.closeness "a" ≤ 1
      ∧ 0 ≤ (buildGraph c7Ast).toNxDiGraph.degreeCentrality "a"
      ∧ (buildGraph c7Ast).toNxDiGraph.degreeCentrality "a" ≤ 4 :=
  C7_centrality_bounds c7Ast "a" (by decide)

/-- C9, counterexample: on the built graph of a single file networkx
`degree_centrality` returns `1` for the node (the `len(G) <= 1` branch),
not `0` as the claim states. -/
theorem C9_counterexample :
    (buildGraph c9Ast).toNxDiGraph.degreeCentrality "a" = 1
      ∧ (buildGraph c9Ast).toNxDiGraph.degreeCentrality "a" ≠ 0 := by
  have hn : (buildGraph c9Ast).toNxDiGraph.n = 1 := by decide
  unfold NxDiGraph.degreeCentrality
  rw [hn]
  norm_num

/-- C9, amended: when the built graph has fewer than 2 nodes, betweenness
and closeness centrality of every node are `0`, while degree centrality is
`1` (networkx returns `1` for every node of a graph with at most one
node). -/
theorem C9_small_graph_centralities (ast : List (String × AstData))
    (v : String) (hn : (buildGraph ast).toNxDiGraph.n ≤ 1)
    (hv : v ∈ (buildGraph ast).toNxDiGraph.nodes) :
    (buildGraph ast).toNxDiGraph.betweenness v = 0
      ∧ (buildGraph ast).toNxDiGraph.closeness v = 0
      ∧ (buildGraph ast).toNxDiGraph.degreeCentrality v = 1 := by
  have hV : v ∈ (buildGraph ast).toNxDiGraph.V := List.mem_toFinset.mpr hv
  refine ⟨?_, ?_, ?_⟩
  · have h1 := betweenness_nonneg (buildGraph ast).toNxDiGraph v
    have h2 : (buildGraph ast).toNxDiGraph.betweenness v ≤ 0 := by
      unfold NxDiGraph.betweenness
      rw [if_neg (by omega)]
      have h3 : (((buildGraph ast).toNxDiGraph.V.erase v).offDiag).card = 0 := by
        rw [Finset.offDiag_card, Finset.card_erase_of_mem hV]
        have h4 : (buildGraph ast).toNxDiGraph.V.card - 1 = 0 := by
          have h5 : (buildGraph ast).toNxDiGraph.V.card ≤ 1 := hn
          omega
        rw [h4]
      calc (buildGraph ast).toNxDiGraph.rawBetweenness v
          ≤ ((((buildGraph ast).toNxDiGraph.V.erase v).offDiag).card : ℚ) :=
            rawBetweenness_le_card _ v
        _ = 0 := by rw [h3]; norm_num
    linarith
  · unfold NxDiGraph.closeness
    rw [if_neg (by omega)]
  · unfold NxDiGraph.degreeCentrality
    rw [if_pos hn]

/-- Witness for `C9_small_graph_centralities` on the one-file instance. -/
theorem C9_witness :
    (buildGraph c9Ast).toNxDiGraph.betweenness "a" = 0
      ∧ (buildGraph c9Ast).toNxDiGraph.closeness "a" = 0
      ∧ (buildGraph c9Ast).toNxDiGraph.degreeCentrality "a" = 1 :=
  C9_small_graph_centralities c9Ast "a" (by decide) (by decide)
